import Mathlib

set_option maxHeartbeats 1000000

/-!
Shallow embedding of the `ida-rs` integrator core (a Rust port of the SUNDIALS
IDA solver) and proofs about it.

Scalars: the Rust code is generic over a `num_traits::Float` scalar (used as
`f64`).  Functions whose logic is plain field arithmetic and comparisons are
embedded over `ℚ` (exact, executable); functions that call the external float
primitives `sqrt` / `powf` (the WRMS norms, `test_error`, `complete_step`)
are embedded over `ℝ` with `Real.sqrt` / real exponentiation.

Vectors (`ndarray` 1-d arrays) are modelled as functions `ℕ → R` together with
an explicit length field `n`; the 2-d `phi` history is `ℕ → ℕ → R`
(row index, then component index).
-/

/-- Weighted root-mean-square norm from `src/traits.rs`, `NormRms::norm_wrms`:
`sqrt( (Σ_i (x_i * w_i)^2) / len )`. -/
noncomputable def norm_wrms (n : ℕ) (x w : ℕ → ℝ) : ℝ :=
  Real.sqrt ((∑ i ∈ Finset.range n, (x i * w i) ^ 2) / n)

/-- Weighted, masked root-mean-square norm from `src/traits.rs`,
`NormRmsMasked::norm_wrms_masked`: the mask maps `true` to `1` and `false`
to `0`, the divisor is still the full length. -/
noncomputable def norm_wrms_masked (n : ℕ) (x w : ℕ → ℝ) (id : ℕ → Bool) : ℝ :=
  Real.sqrt ((∑ i ∈ Finset.range n, (x i * w i * (if id i then 1 else 0)) ^ 2) / n)

/-- The persistent integrator state of `struct Ida` in `src/ida.rs`
(field names follow the source; model-only field `n` is the state-vector
length of the `ndarray` vectors). -/
structure IdaState (R : Type) where
  n : ℕ
  ida_phi : ℕ → ℕ → R
  ida_psi : ℕ → R
  ida_alpha : ℕ → R
  ida_beta : ℕ → R
  ida_sigma : ℕ → R
  ida_gamma : ℕ → R
  ida_ewt : ℕ → R
  ida_ee : ℕ → R
  ida_delta : ℕ → R
  ida_id : ℕ → Bool
  ida_yypredict : ℕ → R
  ida_yppredict : ℕ → R
  ida_suppressalg : Bool
  ida_kk : ℕ
  ida_kused : ℕ
  ida_knew : ℕ
  ida_phase : ℕ
  ida_ns : ℕ
  ida_maxord : ℕ
  ida_hh : R
  ida_hused : R
  ida_rr : R
  ida_tn : R
  ida_tretlast : R
  ida_cj : R
  ida_cjlast : R
  ida_hmax_inv : R
  ida_nst : ℕ
  ida_nre : ℕ
  ida_ncfn : ℕ
  ida_netf : ℕ
  ida_nni : ℕ
  ida_nsetups : ℕ
  ida_cvals : ℕ → R
  ida_dvals : ℕ → R
  ida_Xvecs : ℕ → ℕ → R
  ida_Zvecs : ℕ → ℕ → R

/-- The five coefficient arrays updated by the `set_coeffs` recurrence loop. -/
structure CoeffArrays where
  psi : ℕ → ℚ
  alpha : ℕ → ℚ
  beta : ℕ → ℚ
  sigma : ℕ → ℚ
  gamma : ℕ → ℚ

/-- Body of the `set_coeffs` recurrence `for i in 1..kk` (note: the source loop
is exclusive of `kk`).  `fuel` is the number of remaining iterations
(`kk - 1` at the initial call with `i = 1`), `temp1` is the loop-carried
scalar.  Returns the arrays and the final `temp1`. -/
def sc_loop (hh : ℚ) : ℕ → ℕ → ℚ → CoeffArrays → CoeffArrays × ℚ
  | 0, _, temp1, a => (a, temp1)
  | fuel + 1, i, temp1, a =>
    let temp2 := a.psi (i - 1)
    let psi1 := Function.update a.psi (i - 1) temp1
    let beta1 := Function.update a.beta i (a.beta (i - 1) * (psi1 (i - 1) / temp2))
    let temp3 := temp2 + hh
    let alpha1 := Function.update a.alpha i (hh / temp3)
    let sigma1 := Function.update a.sigma i (a.sigma (i - 1) * alpha1 i * (i : ℚ))
    let gamma1 := Function.update a.gamma i (a.gamma (i - 1) + alpha1 (i - 1) / hh)
    sc_loop hh fuel (i + 1) temp3
      { psi := psi1, alpha := alpha1, beta := beta1, sigma := sigma1, gamma := gamma1 }

/-- `Ida::set_coeffs` from `src/ida.rs`.  Returns the updated state and the
variable-stepsize error coefficient `ck`.

Faithful to the source, including two points where the source differs from
the reference C code it ports: the recurrence loop runs `for i in 1..kk`
(exclusive), and the final "change phi to phi-star" rescaling block is
commented out in the source (dead bindings only), so `phi` is not touched. -/
def set_coeffs (s : IdaState ℚ) : IdaState ℚ × ℚ :=
  let ns0 := if s.ida_hh ≠ s.ida_hused ∨ s.ida_kk ≠ s.ida_kused then 0 else s.ida_ns
  let ns1 := min (ns0 + 1) (s.ida_kused + 2)
  let ar : CoeffArrays :=
    if s.ida_kk + 1 ≥ ns1 then
      let a1 : CoeffArrays :=
        { psi := s.ida_psi, alpha := Function.update s.ida_alpha 0 1,
          beta := Function.update s.ida_beta 0 1, sigma := Function.update s.ida_sigma 0 1,
          gamma := Function.update s.ida_gamma 0 0 }
      let p := sc_loop s.ida_hh (s.ida_kk - 1) 1 s.ida_hh a1
      { p.1 with psi := Function.update p.1.psi s.ida_kk p.2 }
    else
      { psi := s.ida_psi, alpha := s.ida_alpha, beta := s.ida_beta,
        sigma := s.ida_sigma, gamma := s.ida_gamma }
  let alphas := (List.range s.ida_kk).foldl (fun acc (i : ℕ) => acc - 1 / ((i : ℚ) + 1)) 0
  let alpha0 := (List.range s.ida_kk).foldl (fun acc i => acc - ar.alpha i) 0
  let ck0 := |ar.alpha s.ida_kk + alphas - alpha0|
  let ck := max ck0 (ar.alpha s.ida_kk)
  ({ s with
      ida_psi := ar.psi, ida_alpha := ar.alpha, ida_beta := ar.beta,
      ida_sigma := ar.sigma, ida_gamma := ar.gamma, ida_ns := ns1,
      ida_cjlast := s.ida_cj, ida_cj := -alphas / s.ida_hh }, ck)

/-- `Ida::restore` from `src/ida.rs`.  The source's sequential loop
`for j in 1..kk+1 { psi[j-1] = psi[j] - hh }` writes to index `j-1` while
reading index `j`, which has not been written yet, so it equals the
simultaneous update below.  The in-place `phi` scaling multiplies row `j`
(for `ns ≤ j ≤ kk`) by `cvals[j-ns]`, which was just set to `1/beta[j]`. -/
def restore (s : IdaState ℚ) (saved_t : ℚ) : IdaState ℚ :=
  let psi1 := fun j => if j < s.ida_kk then s.ida_psi (j + 1) - s.ida_hh else s.ida_psi j
  if s.ida_ns ≤ s.ida_kk then
    { s with
      ida_tn := saved_t, ida_psi := psi1,
      ida_cvals := fun j =>
        if j ≤ s.ida_kk - s.ida_ns then (s.ida_beta (s.ida_ns + j))⁻¹ else s.ida_cvals j,
      ida_phi := fun j i =>
        if s.ida_ns ≤ j ∧ j ≤ s.ida_kk then s.ida_phi j i * (s.ida_beta j)⁻¹
        else s.ida_phi j i }
  else
    { s with ida_tn := saved_t, ida_psi := psi1 }

/-- `Ida::predict` from `src/ida.rs`.  Faithful to the source:
the loop sets `cvals[0..kk]` (exclusive) to one; `delta = phi[kk] + ee`;
the `Zip` computes `yypredict[i] = Σ_{j=kk+1}^{5} cvals[j] * phi[j][i]`
(the slices taken are `cvals[kk+1..]` and `phi[kk+1.., ..]`, `MXORDP1 = 6`);
`yppredict` is never written (the corresponding line is commented out). -/
def predict (s : IdaState ℚ) : IdaState ℚ :=
  let cvals1 := fun j => if j < s.ida_kk then (1 : ℚ) else s.ida_cvals j
  { s with
    ida_cvals := cvals1,
    ida_delta := fun i => s.ida_phi s.ida_kk i + s.ida_ee i,
    ida_yypredict := fun i => ∑ j ∈ Finset.Ico (s.ida_kk + 1) 6, cvals1 j * s.ida_phi j i }

/-- The error type of `Ida::get_solution`; only the variant that function
produces (`IdaError::BadTimeValue`) is modelled. -/
inductive IdaErr where
  | badTimeValue (t tdiff tcurr : ℚ)
deriving DecidableEq

/-- Unit roundoff of `f64` (`F::Scalar::epsilon()` for `f64` is `2^-52`). -/
def eps_f64 : ℚ := 1 / 2 ^ 52

/-- Success test for an `Except` result. -/
def is_ok {ε α : Type} : Except ε α → Bool
  | .ok _ => true
  | .error _ => false

/-- The time fuzz computed at the top of `Ida::get_solution`:
`tfuzz = 100 * eps * (|tn| + |hh|)`, negated when `hh < 0`. -/
def gs_tfuzz (s : IdaState ℚ) : ℚ :=
  let tfuzz0 := 100 * eps_f64 * (|s.ida_tn| + |s.ida_hh|)
  if s.ida_hh < 0 then -tfuzz0 else tfuzz0

/-- Coefficient loop of `Ida::get_solution` (`for j in 1..kord`, exclusive of
`kord` in the source).  `fuel = kord - 1` iterations, starting at `j = 1`,
carrying `c`, `d`, `gam`. -/
def gs_loop (delt : ℚ) (psi : ℕ → ℚ) :
    ℕ → ℕ → ℚ → ℚ → ℚ → (ℕ → ℚ) → (ℕ → ℚ) → (ℕ → ℚ) × (ℕ → ℚ)
  | 0, _, _, _, _, cvals, dvals => (cvals, dvals)
  | fuel + 1, j, c, d, gam, cvals, dvals =>
    let d1 := d * gam + c / psi (j - 1)
    let c1 := c * gam
    let gam1 := (delt + psi (j - 1)) / psi j
    gs_loop delt psi fuel (j + 1) c1 d1 gam1
      (Function.update cvals j c1) (Function.update dvals (j - 1) d1)

/-- `Ida::get_solution` from `src/ida.rs`.  Checks
`(t - (tn - hused - tfuzz)) * hh < 0` and returns `BadTimeValue` carrying
`t`, `tn - hused`, `tn`; otherwise interpolates
`yret[i] = Σ_{j=0}^{kord} cvals[j]*phi[j][i]` and
`ypret[i] = Σ_{j=1}^{kord} dvals[j-1]*phi[j][i]` with the coefficients from
`gs_loop`.  On error the state (scratch `cvals`/`dvals`) is untouched. -/
def get_solution (s : IdaState ℚ) (t : ℚ) :
    Except IdaErr ((ℕ → ℚ) × (ℕ → ℚ)) × IdaState ℚ :=
  let tp := s.ida_tn - s.ida_hused - gs_tfuzz s
  if (t - tp) * s.ida_hh < 0 then
    (.error (.badTimeValue t (s.ida_tn - s.ida_hused) s.ida_tn), s)
  else
    let kord := if s.ida_kused = 0 then 1 else s.ida_kused
    let delt := t - s.ida_tn
    let p := gs_loop delt s.ida_psi (kord - 1) 1 1 0 (delt / s.ida_psi 0)
      (Function.update s.ida_cvals 0 1) s.ida_dvals
    let yret := fun i => ∑ j ∈ Finset.range (kord + 1), p.1 j * s.ida_phi j i
    let ypret := fun i => ∑ j ∈ Finset.Ico 1 (kord + 1), p.2 (j - 1) * s.ida_phi j i
    (.ok (yret, ypret), { s with ida_cvals := p.1, ida_dvals := p.2 })

/-- A base rational-state with all-zero fields, used to build concrete states
for counterexamples. -/
def base_state : IdaState ℚ :=
  { n := 1, ida_phi := fun _ _ => 0, ida_psi := fun _ => 0, ida_alpha := fun _ => 0,
    ida_beta := fun _ => 0, ida_sigma := fun _ => 0, ida_gamma := fun _ => 0,
    ida_ewt := fun _ => 0, ida_ee := fun _ => 0, ida_delta := fun _ => 0,
    ida_id := fun _ => false, ida_yypredict := fun _ => 0, ida_yppredict := fun _ => 0,
    ida_suppressalg := false, ida_kk := 1, ida_kused := 0, ida_knew := 0, ida_phase := 0,
    ida_ns := 0, ida_maxord := 5, ida_hh := 0, ida_hused := 0, ida_rr := 0, ida_tn := 0,
    ida_tretlast := 0, ida_cj := 0, ida_cjlast := 0, ida_hmax_inv := 0, ida_nst := 0,
    ida_nre := 0, ida_ncfn := 0, ida_netf := 0, ida_nni := 0, ida_nsetups := 0,
    ida_cvals := fun _ => 0, ida_dvals := fun _ => 0,
    ida_Xvecs := fun _ _ => 0, ida_Zvecs := fun _ _ => 0 }

/-- Concrete state exhibiting that `set_coeffs` followed by `restore` is not
an identity on `phi` and `psi` (the phi-star scaling in `set_coeffs` is dead
code in the source, but `restore` still divides by `beta`). -/
def sc_cex_state : IdaState ℚ :=
  { base_state with
    ida_kk := 1, ida_kused := 0, ida_hh := 1, ida_hused := 0,
    ida_psi := fun j => if j = 0 then 5 else if j = 1 then 7 else 0,
    ida_beta := fun j => if j = 1 then 2 else 1,
    ida_phi := fun j _ => if j = 0 then 1 else if j = 1 then 4 else 0 }

/-- Concrete state exhibiting the `predict` port bugs (wrong `phi` slice for
`yypredict`, `yppredict` never written). -/
def pd_cex_state : IdaState ℚ :=
  { base_state with
    ida_kk := 1,
    ida_phi := fun j _ => if j = 0 then 1 else if j = 1 then 2 else 0,
    ida_gamma := fun j => if j = 1 then 1 else 0 }

/-- Concrete state for the `get_solution` window counterexample:
`hh = 1 > 0`, `tn = 1`, `hused = 1`, so a query at `t = 3` is past `tn`. -/
def gs_cex_state : IdaState ℚ :=
  { base_state with
    ida_hh := 1, ida_tn := 1, ida_hused := 1, ida_kused := 1,
    ida_psi := fun _ => 1 }

/-- `Ida::wrms_norm` from `src/ida.rs`: masked norm when `mask` is set,
plain WRMS norm otherwise. -/
noncomputable def ida_wrms_norm (s : IdaState ℝ) (x w : ℕ → ℝ) (mask : Bool) : ℝ :=
  if mask then norm_wrms_masked s.n x w s.ida_id else norm_wrms s.n x w

/-- `Ida::test_error` from `src/ida.rs`.  Returns the updated state together
with the tuple `(err_k, err_km1, nflag)`; the boolean third component of the
source is modelled as the proposition `ck * enorm_k > 1` it computes.
Faithful to the source: at `kk > 2` the scratch `delta` is overwritten with
`phi[kk-1] + ee` (the source does `assign` then `scaled_add` of `ee`). -/
noncomputable def test_error (s : IdaState ℝ) (ck : ℝ) :
    IdaState ℝ × (ℝ × ℝ × Prop) :=
  let enorm_k := ida_wrms_norm s s.ida_ee s.ida_ewt s.ida_suppressalg
  let err_k := s.ida_sigma s.ida_kk * enorm_k
  let terr_k := err_k * ((s.ida_kk + 1 : ℕ) : ℝ)
  if s.ida_kk > 1 then
    let delta1 := fun i => s.ida_phi s.ida_kk i + s.ida_ee i
    let enorm_km1 := ida_wrms_norm s delta1 s.ida_ewt s.ida_suppressalg
    let err_km1 := s.ida_sigma (s.ida_kk - 1) * enorm_km1
    let terr_km1 := err_km1 * ((s.ida_kk : ℕ) : ℝ)
    if s.ida_kk > 2 then
      let delta2 := fun i => s.ida_phi (s.ida_kk - 1) i + s.ida_ee i
      let enorm_km2 := ida_wrms_norm s delta2 s.ida_ewt s.ida_suppressalg
      let err_km2 := s.ida_sigma (s.ida_kk - 2) * enorm_km2
      let terr_km2 := err_km2 * ((s.ida_kk - 1 : ℕ) : ℝ)
      let knew1 := if max terr_km1 terr_km2 ≤ terr_k then s.ida_kk - 1 else s.ida_kk
      ({ s with ida_knew := knew1, ida_delta := delta2 },
       (err_k, err_km1, ck * enorm_k > 1))
    else
      let knew1 := if terr_km1 ≤ terr_k * (1 / 2) then s.ida_kk - 1 else s.ida_kk
      ({ s with ida_knew := knew1, ida_delta := delta1 },
       (err_k, err_km1, ck * enorm_k > 1))
  else
    ({ s with ida_knew := s.ida_kk }, (err_k, 0, ck * enorm_k > 1))

/-- Step clamp used twice in `Ida::complete_step`:
`tmp = |hnew| * hmax_inv; if tmp > 1 { hnew /= tmp }`. -/
noncomputable def hclamp (hmax_inv hnew : ℝ) : ℝ :=
  if |hnew| * hmax_inv > 1 then hnew / (|hnew| * hmax_inv) else hnew

/-- Order decision of the steady phase of `Ida::complete_step`. -/
inductive CsAction where
  | none
  | lower
  | maintain
  | raise

/-- Error estimate at order `k+1` inside `Ida::complete_step`
(`tempv1 = ee - phi[kk+1]`, `err_kp1 = wrms(tempv1, ewt) / (kk + 2)`). -/
noncomputable def cs_err_kp1 (s : IdaState ℝ) : ℝ :=
  ida_wrms_norm s (fun i => s.ida_ee i - s.ida_phi (s.ida_kk + 1) i)
      s.ida_ewt s.ida_suppressalg / ((s.ida_kk + 2 : ℕ) : ℝ)

/-- The LOWER/MAINTAIN/RAISE decision of the steady phase of
`Ida::complete_step` (`kdiff = kk - kused` computed on entry). -/
noncomputable def cs_action (s : IdaState ℝ) (err_k err_km1 : ℝ) : CsAction :=
  if s.ida_knew = s.ida_kk - 1 then .lower
  else if s.ida_kk = s.ida_maxord then .maintain
  else if s.ida_kk + 1 ≥ s.ida_ns ∨ s.ida_kk - s.ida_kused = 1 then .maintain
  else
    let terr_k := ((s.ida_kk + 1 : ℕ) : ℝ) * err_k
    let terr_kp1 := ((s.ida_kk + 2 : ℕ) : ℝ) * cs_err_kp1 s
    if s.ida_kk = 1 then
      if terr_kp1 ≥ (1 / 2) * terr_k then .maintain else .raise
    else
      let terr_km1 := ((s.ida_kk : ℕ) : ℝ) * err_km1
      if terr_km1 ≤ min terr_k terr_kp1 then .lower
      else if terr_kp1 ≥ terr_k then .maintain else .raise

/-- The order selected by the steady phase of `Ida::complete_step`. -/
noncomputable def cs_kk_after (s : IdaState ℝ) (err_k err_km1 : ℝ) : ℕ :=
  match cs_action s err_k err_km1 with
  | .raise => s.ida_kk + 1
  | .lower => s.ida_kk - 1
  | _ => s.ida_kk

/-- The error-norm estimate `err_knew` selected by the steady phase of
`Ida::complete_step`. -/
noncomputable def cs_err_knew (s : IdaState ℝ) (err_k err_km1 : ℝ) : ℝ :=
  match cs_action s err_k err_km1 with
  | .raise => cs_err_kp1 s
  | .lower => err_km1
  | _ => err_k

/-- The tentative step ratio of the steady phase of `Ida::complete_step`:
`rr = (2*err_knew + 0.0001) ^ (-1/(kk+1))` with the updated order `kk`
(real exponentiation models `powf`). -/
noncomputable def cs_rr (s : IdaState ℝ) (err_k err_km1 : ℝ) : ℝ :=
  (2 * cs_err_knew s err_k err_km1 + 1 / 10000) ^
    (-(1 / ((cs_kk_after s err_k err_km1 : ℕ) + 1 : ℝ)))

/-- `Ida::complete_step` from `src/ida.rs`.  Note a port artifact kept
faithfully: the final "update phi arrays" block copies slices of `phi` into
the owned scratch arrays `Xvecs`/`Zvecs` and adds them there, so (unlike the
C original, where these are arrays of pointers into `phi`) `phi` itself is
only modified by the `phi[kused+1] = ee` save. -/
noncomputable def complete_step (s : IdaState ℝ) (err_k err_km1 : ℝ) : IdaState ℝ :=
  let nst1 := s.ida_nst + 1
  let kused1 := s.ida_kk
  let phase1 := if s.ida_knew = s.ida_kk - 1 ∨ s.ida_kk = s.ida_maxord then 1 else s.ida_phase
  let base : IdaState ℝ :=
    { s with
      ida_nst := nst1, ida_kused := kused1, ida_hused := s.ida_hh, ida_phase := phase1 }
  let stepped : IdaState ℝ :=
    if phase1 = 0 then
      if nst1 > 1 then
        { base with ida_kk := s.ida_kk + 1, ida_hh := hclamp s.ida_hmax_inv (2 * s.ida_hh) }
      else base
    else
      let kk1 := cs_kk_after s err_k err_km1
      let rr0 := cs_rr s err_k err_km1
      if rr0 ≥ 2 then
        { base with
          ida_kk := kk1, ida_rr := rr0, ida_hh := hclamp s.ida_hmax_inv (2 * s.ida_hh) }
      else if rr0 ≤ 1 then
        let rr1 := max (1 / 2) (min (9 / 10) rr0)
        { base with ida_kk := kk1, ida_rr := rr1, ida_hh := s.ida_hh * rr1 }
      else
        { base with ida_kk := kk1, ida_rr := rr0, ida_hh := s.ida_hh }
  let phi1 :=
    if kused1 < s.ida_maxord then
      fun j i => if j = kused1 + 1 then s.ida_ee i else stepped.ida_phi j i
    else stepped.ida_phi
  let Zv := fun r i =>
    if r = 0 then s.ida_ee i
    else if 1 ≤ r ∧ r ≤ kused1 then phi1 (kused1 + 1 - r) i
    else s.ida_Zvecs r i
  let Xv0 := fun r i =>
    if 1 ≤ r ∧ r ≤ kused1 then phi1 (kused1 - r) i else s.ida_Xvecs r i
  let Xv := fun r i => if r ≤ kused1 then Xv0 r i + Zv r i else Xv0 r i
  { stepped with ida_phi := phi1, ida_Zvecs := Zv, ida_Xvecs := Xv }

/-- The postcondition of `complete_step` asserted by the specification:
unconditionally (for every successful step, bootstrap phase included) the
step counter is incremented and the order and stepsize used are recorded;
on a steady-phase step (`phase = 1` on entry) additionally the step-ratio
policy applies. -/
noncomputable def cs_post (s : IdaState ℝ) (err_k err_km1 : ℝ) : Prop :=
  let t := complete_step s err_k err_km1
  let rho := cs_rr s err_k err_km1
  t.ida_nst = s.ida_nst + 1 ∧ t.ida_kused = s.ida_kk ∧ t.ida_hused = s.ida_hh ∧
  (s.ida_phase = 1 →
    t.ida_kk = cs_kk_after s err_k err_km1 ∧
    (rho ≥ 2 → t.ida_rr = rho ∧ t.ida_hh = hclamp s.ida_hmax_inv (2 * s.ida_hh)) ∧
    (rho ≤ 1 → t.ida_rr = max (1 / 2) (min (9 / 10) rho) ∧ t.ida_hh = s.ida_hh * t.ida_rr) ∧
    (1 < rho → rho < 2 → t.ida_rr = rho ∧ t.ida_hh = s.ida_hh))

/-- A base real-state with all-zero fields, used to build concrete states. -/
noncomputable def base_stateR : IdaState ℝ :=
  { n := 1, ida_phi := fun _ _ => 0, ida_psi := fun _ => 0, ida_alpha := fun _ => 0,
    ida_beta := fun _ => 0, ida_sigma := fun _ => 0, ida_gamma := fun _ => 0,
    ida_ewt := fun _ => 0, ida_ee := fun _ => 0, ida_delta := fun _ => 0,
    ida_id := fun _ => false, ida_yypredict := fun _ => 0, ida_yppredict := fun _ => 0,
    ida_suppressalg := false, ida_kk := 1, ida_kused := 0, ida_knew := 0, ida_phase := 0,
    ida_ns := 0, ida_maxord := 5, ida_hh := 0, ida_hused := 0, ida_rr := 0, ida_tn := 0,
    ida_tretlast := 0, ida_cj := 0, ida_cjlast := 0, ida_hmax_inv := 0, ida_nst := 0,
    ida_nre := 0, ida_ncfn := 0, ida_netf := 0, ida_nni := 0, ida_nsetups := 0,
    ida_cvals := fun _ => 0, ida_dvals := fun _ => 0,
    ida_Xvecs := fun _ _ => 0, ida_Zvecs := fun _ _ => 0 }

/-- Concrete state for the `test_error` flag counterexample: one component,
`ee = 0`, `ewt = 1`, order `kk = 1`, so `enorm_k = 0`. -/
noncomputable def te_cex_state : IdaState ℝ :=
  { base_stateR with
    ida_kk := 1, ida_ewt := fun _ => 1, ida_sigma := fun _ => 1 }

/-- Concrete steady-phase state used as witness input for `complete_step`. -/
noncomputable def cs_wit_state : IdaState ℝ :=
  { base_stateR with
    ida_phase := 1, ida_kk := 1, ida_kused := 1, ida_knew := 1, ida_ns := 3 }

/-- Error type of the nonlinear solver (`src/nonlinear/traits.rs`):
`convRecover` models `Error::ConvergenceRecover` (the only variant the solve
loop inspects via downcast); every other failure from the callbacks is
modelled by `other`. -/
inductive NewtonErr where
  | convRecover
  | other (code : ℕ)
deriving DecidableEq

/-- Scripted `NLProblem` (`src/nonlinear/traits.rs`): each callback result is
a function of how many times that callback has been invoked so far plus the
arguments the source passes it.  `sysRes i y` is the vector stored into
`delta` (or an error); `lsetupRes i y0 jbad` is the returned `jcur` flag;
`lsolveRes i y b` is the in-place solved right-hand side; `ctestRes i y del`
is the convergence verdict (`tol` and the weights `w` are fixed for a solve
and folded into the script). -/
structure NProblem (V : Type) where
  sysRes : ℕ → V → Except NewtonErr V
  lsetupRes : ℕ → V → Bool → Except NewtonErr Bool
  lsolveRes : ℕ → V → V → Except NewtonErr V
  ctestRes : ℕ → V → V → Except NewtonErr Bool

/-- State of `struct Newton` in `src/nonlinear/newton.rs`, extended with the
output iterate `y` (the `&mut` argument of `solve`) and one invocation
counter per callback. -/
structure NState (V : Type) where
  delta : V
  jcur : Bool
  curiter : ℕ
  maxiters : ℕ
  niters : ℕ
  nconvfails : ℕ
  y : V
  nsys : ℕ
  nlsetup : ℕ
  nlsolve : ℕ
  nctest : ℕ
deriving DecidableEq

/-- The inner Newton iteration loop of `Newton::solve`
(`src/nonlinear/newton.rs`): increment `niters`, negate `delta`, `lsolve`,
`y += delta`, `ctest`; on convergence clear `jcur` and return `Ok`; otherwise
bump `curiter` and either fail with `ConvergenceRecover` at `maxiters` or
re-evaluate `sys` and continue. -/
def newton_inner {V : Type} [Add V] [Neg V] (p : NProblem V) (s : NState V) :
    Except NewtonErr Unit × NState V :=
  let s1 : NState V := { s with niters := s.niters + 1, delta := -s.delta }
  match p.lsolveRes s1.nlsolve s1.y s1.delta with
  | .error e => (.error e, { s1 with nlsolve := s1.nlsolve + 1 })
  | .ok d =>
    let s2 : NState V := { s1 with nlsolve := s1.nlsolve + 1, delta := d, y := s1.y + d }
    match p.ctestRes s2.nctest s2.y s2.delta with
    | .error e => (.error e, { s2 with nctest := s2.nctest + 1 })
    | .ok true => (.ok (), { s2 with nctest := s2.nctest + 1, jcur := false })
    | .ok false =>
      let s3 : NState V := { s2 with nctest := s2.nctest + 1, curiter := s2.curiter + 1 }
      if _h : s3.curiter ≥ s3.maxiters then (.error .convRecover, s3)
      else
        match p.sysRes s3.nsys s3.y with
        | .error e => (.error e, { s3 with nsys := s3.nsys + 1 })
        | .ok d2 => newton_inner p { s3 with nsys := s3.nsys + 1, delta := d2 }
termination_by s.maxiters - s.curiter
decreasing_by simp_all; omega

/-- One pass of the outer (setup) loop of `Newton::solve`: evaluate the
residual at `y0` into `delta`, optionally call `lsetup` (recording `jcur`),
then reset `curiter`, load `y := y0` and run the inner Newton loop. -/
def newton_attempt {V : Type} [Add V] [Neg V] (p : NProblem V) (y0 : V)
    (call_lsetup jbad : Bool) (s : NState V) : Except NewtonErr Unit × NState V :=
  match p.sysRes s.nsys y0 with
  | .error e => (.error e, { s with nsys := s.nsys + 1 })
  | .ok d =>
    let s1 : NState V := { s with nsys := s.nsys + 1, delta := d }
    if call_lsetup then
      match p.lsetupRes s1.nlsetup y0 jbad with
      | .error e => (.error e, { s1 with nlsetup := s1.nlsetup + 1 })
      | .ok jc =>
        newton_inner p { s1 with nlsetup := s1.nlsetup + 1, jcur := jc, curiter := 0, y := y0 }
    else
      newton_inner p { s1 with curiter := 0, y := y0 }

/-- `Newton::solve` from `src/nonlinear/newton.rs`.  A successful attempt
returns immediately; a `ConvergenceRecover` failure with a stale Jacobian
(`jcur = false`) increments `nconvfails` and restarts the outer loop with
`call_lsetup = true` and `jbad = true`; any other failure breaks out and
increments `nconvfails` once before returning.  The outer loop has no bound
in the source (it can spin while `lsetup` keeps reporting a stale Jacobian),
so it is given explicit `fuel`; `none` means the fuel ran out mid-loop. -/
def newton_solve {V : Type} [Add V] [Neg V] (p : NProblem V) (y0 : V) :
    Bool → Bool → ℕ → NState V → Option (Except NewtonErr Unit × NState V)
  | _, _, 0, _ => none
  | call_lsetup, jbad, fuel + 1, s =>
    match newton_attempt p y0 call_lsetup jbad s with
    | (.ok u, s1) => some (.ok u, s1)
    | (.error e, s1) =>
      if e = .convRecover ∧ s1.jcur = false then
        newton_solve p y0 true true fuel { s1 with nconvfails := s1.nconvfails + 1 }
      else
        some (.error e, { s1 with nconvfails := s1.nconvfails + 1 })

/-- Script for the Newton-solve witness: every callback succeeds and the very
first convergence test passes. -/
def nw_p : NProblem ℚ :=
  { sysRes := fun _ _ => .ok 0,
    lsetupRes := fun _ _ _ => .ok true,
    lsolveRes := fun _ _ _ => .ok 0,
    ctestRes := fun _ _ _ => .ok true }

/-- Initial Newton state for the witness run. -/
def nw_s0 : NState ℚ :=
  { delta := 0, jcur := false, curiter := 0, maxiters := 10, niters := 0,
    nconvfails := 0, y := 0, nsys := 0, nlsetup := 0, nlsolve := 0, nctest := 0 }

/-- Final Newton state of the witness run (one inner iteration, converged). -/
def nw_final : NState ℚ :=
  { delta := 0, jcur := false, curiter := 0, maxiters := 10, niters := 1,
    nconvfails := 0, y := 0, nsys := 1, nlsetup := 1, nlsolve := 1, nctest := 1 }

/-! ### Theorems -/

/-- Folding repeated subtraction equals subtracting the sum; this interprets
the accumulation loops computing `alphas` and `alpha0` in `set_coeffs`. -/
theorem foldl_sub_eq_sub_sum (f : ℕ → ℚ) (c : ℚ) (n : ℕ) :
    (List.range n).foldl (fun acc i => acc - f i) c =
      c - ∑ i ∈ Finset.range n, f i := by
  induction n with
  | zero => simp
  | succ m ih =>
    rw [List.range_succ, List.foldl_append, ih, Finset.sum_range_succ]
    simp only [List.foldl]
    ring

/-- C9: `restore` leaves `kk`, `ns`, `kused`, `hh`, `hused`, `beta`, `sigma`,
`gamma`, `ee`, `ewt` and all counters (`nst`, `nre`, `ncfn`, `netf`, `nni`,
`nsetups`) unchanged, for every state and every saved time: it only touches
`tn`, `psi`, `phi` and the scratch buffer `cvals`. -/
theorem restore_frame (s : IdaState ℚ) (saved_t : ℚ) :
    (restore s saved_t).ida_kk = s.ida_kk ∧
    (restore s saved_t).ida_ns = s.ida_ns ∧
    (restore s saved_t).ida_kused = s.ida_kused ∧
    (restore s saved_t).ida_hh = s.ida_hh ∧
    (restore s saved_t).ida_hused = s.ida_hused ∧
    (restore s saved_t).ida_beta = s.ida_beta ∧
    (restore s saved_t).ida_sigma = s.ida_sigma ∧
    (restore s saved_t).ida_gamma = s.ida_gamma ∧
    (restore s saved_t).ida_ee = s.ida_ee ∧
    (restore s saved_t).ida_ewt = s.ida_ewt ∧
    (restore s saved_t).ida_nst = s.ida_nst ∧
    (restore s saved_t).ida_nre = s.ida_nre ∧
    (restore s saved_t).ida_ncfn = s.ida_ncfn ∧
    (restore s saved_t).ida_netf = s.ida_netf ∧
    (restore s saved_t).ida_nni = s.ida_nni ∧
    (restore s saved_t).ida_nsetups = s.ida_nsetups := by
  unfold restore
  split <;> simp

/-- C7: `set_coeffs` sets `ns = min(ns+1, kused+2)` after resetting `ns` to
`0` when `hh ≠ hused` or `kk ≠ kused`, saves `cjlast = cj`, sets
`cj = -alphas/hh` with `alphas = -Σ_{i ∈ 0..kk} 1/(i+1)`, and returns
`ck = max(|alpha[kk] + alphas - alpha0|, alpha[kk])` with
`alpha0 = -Σ_{i ∈ 0..kk} alpha[i]` over the updated `alpha` array. -/
theorem set_coeffs_formulas (s : IdaState ℚ) :
    (set_coeffs s).1.ida_ns =
      min ((if s.ida_hh ≠ s.ida_hused ∨ s.ida_kk ≠ s.ida_kused then 0 else s.ida_ns) + 1)
        (s.ida_kused + 2) ∧
    (set_coeffs s).1.ida_cjlast = s.ida_cj ∧
    (set_coeffs s).1.ida_cj =
      -(-(∑ i ∈ Finset.range s.ida_kk, 1 / ((i : ℚ) + 1))) / s.ida_hh ∧
    (set_coeffs s).2 =
      max |(set_coeffs s).1.ida_alpha s.ida_kk +
            -(∑ i ∈ Finset.range s.ida_kk, 1 / ((i : ℚ) + 1)) -
            -(∑ i ∈ Finset.range s.ida_kk, (set_coeffs s).1.ida_alpha i)|
        ((set_coeffs s).1.ida_alpha s.ida_kk) := by
  unfold set_coeffs
  simp only [foldl_sub_eq_sub_sum, zero_sub]
  simp

/-- C1 (code bug): at a concrete state, `set_coeffs` followed by `restore`
with the saved time is not an identity: `phi[1]` gets divided by `beta[1]`
in `restore` although the phi-star scaling in `set_coeffs` is dead code, and
`psi[0]` is not restored either (the recurrence loop of the port stops one
index early). -/
theorem set_coeffs_restore_not_identity :
    (restore (set_coeffs sc_cex_state).1 sc_cex_state.ida_tn).ida_phi 1 0 ≠
      sc_cex_state.ida_phi 1 0 ∧
    (restore (set_coeffs sc_cex_state).1 sc_cex_state.ida_tn).ida_psi 0 ≠
      sc_cex_state.ida_psi 0 := by
  constructor <;>
    norm_num [restore, set_coeffs, sc_loop, sc_cex_state, base_state, Function.update,
      List.range_succ]

/-- C3 (code bug): at a concrete state with `kk = 1`, `predict` does not
compute the specified predictor: `yypredict` is a combination of the unused
tail rows `phi[kk+1..]` with stale coefficients (here `0`) instead of
`Σ_{j=0}^{kk} phi[j]`, and `yppredict` is never written at all. -/
theorem predict_not_spec :
    (predict pd_cex_state).ida_yypredict 0 ≠
      pd_cex_state.ida_phi 0 0 + pd_cex_state.ida_phi 1 0 ∧
    (predict pd_cex_state).ida_yppredict 0 ≠
      pd_cex_state.ida_gamma 1 * pd_cex_state.ida_phi 1 0 := by
  have hkk : pd_cex_state.ida_kk = 1 := rfl
  constructor
  · have h : (predict pd_cex_state).ida_yypredict 0 = 0 := by
      simp only [predict, hkk]
      apply Finset.sum_eq_zero
      intro j hj
      have h2 : 2 ≤ j := (Finset.mem_Ico.mp hj).1
      have hlt : ¬ j < 1 := by omega
      have hc : pd_cex_state.ida_cvals j = 0 := rfl
      simp [hlt, hc]
    rw [h]
    norm_num [pd_cex_state, base_state]
  · have h : (predict pd_cex_state).ida_yppredict 0 = 0 := rfl
    rw [h]
    norm_num [pd_cex_state, base_state]

/-- C4 (amended): `get_solution` returns the bad-time-value error, carrying
exactly the triple `t`, `tn - hused`, `tn`, precisely when
`(t - (tn - hused - tfuzz)) * hh < 0` (with `tfuzz = 100*eps*(|tn|+|hh|)`
sign-matched to `hh`), and succeeds otherwise; the check is one-sided in the
direction of integration, so every `t` inside `[tn - hused - tfuzz, tn]`
succeeds, but so does (for `hh > 0`) every `t` past `tn`. -/
theorem get_solution_window (s : IdaState ℚ) (t : ℚ) (e : IdaErr) :
    ((get_solution s t).1 = .error e ↔
      ((t - (s.ida_tn - s.ida_hused - gs_tfuzz s)) * s.ida_hh < 0 ∧
        e = .badTimeValue t (s.ida_tn - s.ida_hused) s.ida_tn)) ∧
    (is_ok (get_solution s t).1 = true ↔
      ¬ (t - (s.ida_tn - s.ida_hused - gs_tfuzz s)) * s.ida_hh < 0) := by
  unfold get_solution
  by_cases h : (t - (s.ida_tn - s.ida_hused - gs_tfuzz s)) * s.ida_hh < 0 <;>
    simp [h, is_ok, eq_comm]

/-- C4 (counterexample to the claim as stated): with `hh = 1 > 0`, `tn = 1`,
`hused = 1`, the query time `t = 3` lies past `tn`, yet `get_solution`
succeeds instead of raising the bad-time-value error. -/
theorem get_solution_past_tn_succeeds :
    gs_cex_state.ida_tn < 3 ∧ is_ok (get_solution gs_cex_state 3).1 = true := by
  have hc : ¬ ((3 : ℚ) - (gs_cex_state.ida_tn - gs_cex_state.ida_hused - gs_tfuzz gs_cex_state)) *
      gs_cex_state.ida_hh < 0 := by
    norm_num [gs_tfuzz, eps_f64, gs_cex_state, base_state]
  constructor
  · norm_num [gs_cex_state, base_state]
  · simp only [get_solution]
    rw [if_neg hc]
    rfl

/-- C8: for a vector of 32 components all equal to `-0.5` with weights all
`0.5`, the WRMS norm is `0.25`, and the masked WRMS norm with a mask
excluding exactly one component is `0.25 * sqrt(31/32)`. -/
theorem norm_wrms_fixture :
    norm_wrms 32 (fun _ => -(1 / 2)) (fun _ => 1 / 2) = 1 / 4 ∧
    norm_wrms_masked 32 (fun _ => -(1 / 2)) (fun _ => 1 / 2) (fun i => i != 31) =
      1 / 4 * Real.sqrt (31 / 32) := by
  constructor
  · have h : norm_wrms 32 (fun _ => -(1 / 2)) (fun _ => 1 / 2) =
        Real.sqrt (((1 : ℝ) / 4) ^ 2) := by
      unfold norm_wrms
      norm_num [Finset.sum_const]
    rw [h, Real.sqrt_sq (by norm_num)]
  · have hs : (∑ i ∈ Finset.range 32,
        ((fun _ => -(1 / 2 : ℝ)) i * (fun _ => (1 / 2 : ℝ)) i *
          (if (fun i => i != 31) i then 1 else 0)) ^ 2) = 31 / 16 := by
      rw [Finset.sum_range_succ]
      have key : ∀ i ∈ Finset.range 31,
          ((fun _ => -(1 / 2 : ℝ)) i * (fun _ => (1 / 2 : ℝ)) i *
            (if (fun i => i != 31) i then 1 else 0)) ^ 2 = 1 / 16 := by
        intro i hi
        have hne : i ≠ 31 := by
          have := Finset.mem_range.mp hi; omega
        simp only [bne_iff_ne, ne_eq, hne, not_false_eq_true, if_true]
        norm_num
      rw [Finset.sum_congr rfl key, Finset.sum_const]
      norm_num
    have harg : ((31 / 16 : ℝ) / ((32 : ℕ) : ℝ)) =
        (1 / 4 * Real.sqrt (31 / 32)) ^ 2 := by
      rw [mul_pow, Real.sq_sqrt (by norm_num : (0 : ℝ) ≤ 31 / 32)]
      norm_num
    unfold norm_wrms_masked
    rw [hs, harg, Real.sqrt_sq (by positivity)]

/-- C10: for every vector, weight vector and boolean mask, the masked WRMS
norm is at most the unmasked WRMS norm (the masked variant zeroes excluded
components but still divides by the full length), with equality when every
in-range mask component is `true`. -/
theorem norm_wrms_masked_le_norm_wrms (n : ℕ) (x w : ℕ → ℝ) (id : ℕ → Bool) :
    norm_wrms_masked n x w id ≤ norm_wrms n x w ∧
    ((∀ i, i < n → id i = true) → norm_wrms_masked n x w id = norm_wrms n x w) := by
  constructor
  · unfold norm_wrms norm_wrms_masked
    apply Real.sqrt_le_sqrt
    rcases Nat.eq_zero_or_pos n with h0 | hpos
    · subst h0; simp
    · rw [div_le_div_iff_of_pos_right (by exact_mod_cast hpos)]
      apply Finset.sum_le_sum
      intro i _
      by_cases h : id i
      · simp [h]
      · simp only [h, if_false]
        simpa using sq_nonneg (x i * w i)
  · intro hall
    unfold norm_wrms norm_wrms_masked
    congr 1
    congr 1
    apply Finset.sum_congr rfl
    intro i hi
    rw [hall i (Finset.mem_range.mp hi)]
    norm_num

/-- C10 witness: at a concrete instance with an all-true mask, the masked and
unmasked norms agree (and the inequality holds). -/
theorem norm_wrms_masked_le_norm_wrms_witness :
    norm_wrms_masked 2 (fun _ => 3) (fun _ => 1) (fun _ => true) ≤
      norm_wrms 2 (fun _ => 3) (fun _ => 1) ∧
    norm_wrms_masked 2 (fun _ => 3) (fun _ => 1) (fun _ => true) =
      norm_wrms 2 (fun _ => 3) (fun _ => 1) :=
  ⟨(norm_wrms_masked_le_norm_wrms 2 (fun _ => 3) (fun _ => 1) (fun _ => true)).1,
   (norm_wrms_masked_le_norm_wrms 2 (fun _ => 3) (fun _ => 1) (fun _ => true)).2
     (fun _ _ => rfl)⟩

/-- C2 (amended): `test_error` returns `err_k = sigma[kk] * enorm_k`, where
`enorm_k` is the (masked or unmasked, per `suppressalg`) WRMS norm of `ee`,
and its boolean component is the error-test *failure* flag: it holds exactly
when `ck * enorm_k > 1` (step acceptance is its negation, not the flag
itself). -/
theorem test_error_flag (s : IdaState ℝ) (ck : ℝ) :
    (test_error s ck).2.1 =
      s.ida_sigma s.ida_kk * ida_wrms_norm s s.ida_ee s.ida_ewt s.ida_suppressalg ∧
    ((test_error s ck).2.2.2 ↔
      ck * ida_wrms_norm s s.ida_ee s.ida_ewt s.ida_suppressalg > 1) := by
  unfold test_error
  split
  · split
    · exact ⟨rfl, Iff.rfl⟩
    · exact ⟨rfl, Iff.rfl⟩
  · exact ⟨rfl, Iff.rfl⟩

/-- C2 (counterexample to the claim as stated): at a concrete state with
`ee = 0` (so `enorm_k = 0`) and `ck = 1`, the test `ck * enorm_k ≤ 1` holds,
yet the returned flag is false — the flag is not the acceptance flag
`ck * enorm_k ≤ 1` claimed by the specification. -/
theorem test_error_flag_cex :
    ¬ (test_error te_cex_state 1).2.2.2 ∧
    (1 : ℝ) * ida_wrms_norm te_cex_state te_cex_state.ida_ee te_cex_state.ida_ewt
        te_cex_state.ida_suppressalg ≤ 1 := by
  have hnorm : ida_wrms_norm te_cex_state te_cex_state.ida_ee te_cex_state.ida_ewt
      te_cex_state.ida_suppressalg = 0 := by
    have hsupp : te_cex_state.ida_suppressalg = false := rfl
    unfold ida_wrms_norm
    rw [hsupp]
    simp only [Bool.false_eq_true, if_false]
    unfold norm_wrms
    have hee : ∀ i, te_cex_state.ida_ee i = 0 := fun _ => rfl
    simp [hee]
  have hkk : ¬ te_cex_state.ida_kk > 1 := by
    have : te_cex_state.ida_kk = 1 := rfl
    omega
  constructor
  · unfold test_error
    rw [if_neg hkk]
    simp only [hnorm]
    norm_num
  · rw [hnorm]
    norm_num

/-- C6: on every successful step (with a well-formed order, `1 ≤ kk` and
`kused ≤ kk`, mirroring the untruncated `usize` arithmetic of the source),
`complete_step` increments `nst` by one and records `kused = kk` and
`hused = hh` — bootstrap-phase steps included; in the steady phase it
additionally computes the ratio `rr = (2*err_knew + 1e-4)^(-1/(kk+1))` (at
the updated order): if `rr ≥ 2` it doubles `hh` clamped by `hmax_inv`, if
`rr ≤ 1` it clamps `rr` into `[0.5, 0.9]` and sets `hh = hh*rr`, and
otherwise leaves `hh` unchanged. -/
theorem complete_step_spec (s : IdaState ℝ) (err_k err_km1 : ℝ)
    (_hkk : 1 ≤ s.ida_kk) (_hku : s.ida_kused ≤ s.ida_kk) :
    cs_post s err_k err_km1 := by
  simp only [cs_post, complete_step]
  refine ⟨?_, ?_, ?_, ?_⟩
  · split_ifs <;> rfl
  · split_ifs <;> rfl
  · split_ifs <;> rfl
  · intro hphase
    simp only [hphase, ite_self]
    norm_num
    split_ifs with h1 h2
    · exact ⟨rfl, fun _ => ⟨rfl, rfl⟩,
        fun h6 => absurd h6 (by linarith), fun _ h7 => absurd h7 (by linarith)⟩
    · exact ⟨rfl, fun h5 => absurd h5 (by linarith),
        fun _ => ⟨rfl, rfl⟩, fun h7 _ => absurd h7 (by linarith)⟩
    · exact ⟨rfl, fun h5 => absurd h5 (by linarith),
        fun h6 => absurd h6 (by linarith), fun _ _ => ⟨rfl, rfl⟩⟩

/-- C6 witness: the postcondition instantiated at a concrete steady-phase
state. -/
theorem complete_step_spec_witness : cs_post cs_wit_state 1 1 :=
  complete_step_spec cs_wit_state 1 1 (Nat.le_refl 1) (Nat.le_refl 1)

/-- Counter accounting for one run of the inner Newton loop: `niters` and the
`lsolve` call counter advance in lockstep (one increment per iteration),
`niters` strictly increases, and `nconvfails` is untouched. -/
theorem newton_inner_acc {V : Type} [Add V] [Neg V] (p : NProblem V) (s : NState V) :
    (newton_inner p s).2.niters + s.nlsolve = s.niters + (newton_inner p s).2.nlsolve ∧
    s.niters + 1 ≤ (newton_inner p s).2.niters ∧
    (newton_inner p s).2.nconvfails = s.nconvfails := by
  refine newton_inner.induct p
    (fun t => (newton_inner p t).2.niters + t.nlsolve = t.niters + (newton_inner p t).2.nlsolve ∧
      t.niters + 1 ≤ (newton_inner p t).2.niters ∧
      (newton_inner p t).2.nconvfails = t.nconvfails) ?_ ?_ ?_ ?_ ?_ ?_ s
  · intro x s1 e heq
    rw [newton_inner]
    simp only [s1] at heq ⊢
    simp only [heq]
    simp
    all_goals omega
  · intro x s1 d2 heq s2 e heq2
    rw [newton_inner]
    simp only [s1, s2] at heq heq2 ⊢
    simp only [heq, heq2]
    simp
    all_goals omega
  · intro x s1 d2 heq s2 heq2
    rw [newton_inner]
    simp only [s1, s2] at heq heq2 ⊢
    simp only [heq, heq2]
    simp
    all_goals omega
  · intro x s1 d2 heq s2 heq2 s3 hge
    rw [newton_inner]
    simp only [s1, s2, s3] at heq heq2 hge ⊢
    simp only [heq, heq2]
    simp [hge]
    all_goals omega
  · intro x s1 d2 heq s2 heq2 s3 hge e heq3
    rw [newton_inner]
    simp only [s1, s2, s3] at heq heq2 hge heq3 ⊢
    simp only [heq, heq2]
    simp [hge, heq3]
    all_goals omega
  · intro x s1 d2 heq s2 heq2 s3 hge d3 heq3 ih
    rw [newton_inner]
    simp only [s1, s2, s3] at heq heq2 hge heq3 ih ⊢
    simp only [heq, heq2]
    simp only [heq3]
    simp [hge] at ih ⊢
    all_goals omega

/-- Restated inner-loop accounting, keyed on the entry values of the counters
(for use after the outer loop has updated other fields). -/
theorem newton_inner_acc2 {V : Type} [Add V] [Neg V] (p : NProblem V) (t : NState V)
    (a b c : ℕ) (h1 : t.niters = a) (h2 : t.nlsolve = b) (h3 : t.nconvfails = c) :
    (newton_inner p t).2.niters + b = a + (newton_inner p t).2.nlsolve ∧
    a ≤ (newton_inner p t).2.niters ∧
    (newton_inner p t).2.nconvfails = c := by
  obtain ⟨g1, g2, g3⟩ := newton_inner_acc p t
  subst h1 h2 h3
  exact ⟨g1, by omega, g3⟩

/-- Counter accounting for one outer-loop pass (`newton_attempt`): the
residual evaluation and optional `lsetup` call do not touch `niters`,
`nlsolve` or `nconvfails`, so the inner-loop accounting carries over. -/
theorem newton_attempt_acc {V : Type} [Add V] [Neg V] (p : NProblem V) (y0 : V)
    (cls jbad : Bool) (s : NState V) :
    (newton_attempt p y0 cls jbad s).2.niters + s.nlsolve
        = s.niters + (newton_attempt p y0 cls jbad s).2.nlsolve ∧
    s.niters ≤ (newton_attempt p y0 cls jbad s).2.niters ∧
    (newton_attempt p y0 cls jbad s).2.nconvfails = s.nconvfails := by
  unfold newton_attempt
  split
  · simp
  · split
    · simp only []
      split
      · simp
      · exact newton_inner_acc2 p _ _ _ _ (by simp) (by simp) (by simp)
    · simp only []
      exact newton_inner_acc2 p _ _ _ _ (by simp) (by simp) (by simp)

/-- Any completed `newton_solve` run advances `niters` by exactly the number
of `lsolve` calls made, and never decreases `niters` or `nconvfails`. -/
theorem newton_solve_acc {V : Type} [Add V] [Neg V] (p : NProblem V) (y0 : V) :
    ∀ (fuel : ℕ) (cls jbad : Bool) (s : NState V) (r : Except NewtonErr Unit)
      (s2 : NState V),
      newton_solve p y0 cls jbad fuel s = some (r, s2) →
      s2.niters + s.nlsolve = s.niters + s2.nlsolve ∧
      s.niters ≤ s2.niters ∧ s.nconvfails ≤ s2.nconvfails := by
  intro fuel
  induction fuel with
  | zero =>
    intro cls jbad s r s2 h
    rw [newton_solve] at h
    simp at h
  | succ n ih =>
    intro cls jbad s r s2 h
    rw [newton_solve] at h
    obtain ⟨a1, a2, a3⟩ := newton_attempt_acc p y0 cls jbad s
    rcases hat : newton_attempt p y0 cls jbad s with ⟨ra, sa⟩
    rw [hat] at h a1 a2 a3
    simp only at a1 a2 a3
    cases ra with
    | ok u =>
      simp at h
      obtain ⟨_, hs⟩ := h
      subst hs
      exact ⟨a1, a2, le_of_eq a3.symm⟩
    | error e =>
      simp only at h
      by_cases hc : e = NewtonErr.convRecover ∧ sa.jcur = false
      · rw [if_pos hc] at h
        have hrec := ih true true _ r s2 h
        simp only at hrec
        obtain ⟨b1, b2, b3⟩ := hrec
        exact ⟨by omega, by omega, by omega⟩
      · rw [if_neg hc] at h
        simp at h
        obtain ⟨_, hs⟩ := h
        subst hs
        refine ⟨by simp; omega, by simp; omega, by simp; omega⟩

/-- Any completed failing `newton_solve` run increments `nconvfails` at least
once beyond its entry value. -/
theorem newton_solve_err {V : Type} [Add V] [Neg V] (p : NProblem V) (y0 : V) :
    ∀ (fuel : ℕ) (cls jbad : Bool) (s : NState V) (e : NewtonErr) (s2 : NState V),
      newton_solve p y0 cls jbad fuel s = some (.error e, s2) →
      s.nconvfails + 1 ≤ s2.nconvfails := by
  intro fuel
  induction fuel with
  | zero =>
    intro cls jbad s e s2 h
    rw [newton_solve] at h
    simp at h
  | succ n ih =>
    intro cls jbad s e s2 h
    rw [newton_solve] at h
    obtain ⟨a1, a2, a3⟩ := newton_attempt_acc p y0 cls jbad s
    rcases hat : newton_attempt p y0 cls jbad s with ⟨ra, sa⟩
    rw [hat] at h a1 a2 a3
    simp only at a1 a2 a3
    cases ra with
    | ok u => simp at h
    | error e1 =>
      simp only at h
      by_cases hc : e1 = NewtonErr.convRecover ∧ sa.jcur = false
      · rw [if_pos hc] at h
        have hrec := ih true true _ e s2 h
        simp at hrec
        omega
      · rw [if_neg hc] at h
        simp at h
        obtain ⟨_, hs⟩ := h
        subst hs
        simp
        omega

/-- C5: behavior of `Newton::solve`.  First conjunct (one unfolding of the
outer loop): a successful attempt returns as is; on an attempt failing with
a recoverable convergence failure while the Jacobian is not current
(`jcur = false`), the solver increments `nconvfails`, forces setup
(`call_lsetup = true`, `jbad = true`) and restarts the outer loop; any other
failure — including a recoverable one with the Jacobian current — is
returned to the caller after one further `nconvfails` increment.  Second
conjunct: over any completed run, `niters` grows by exactly one per inner
Newton iteration (= per `lsolve` call) and neither `niters` nor `nconvfails`
is ever reset (both are monotone).  Third conjunct: every failed return has
incremented `nconvfails`. -/
theorem newton_solve_counters {V : Type} [Add V] [Neg V] (p : NProblem V) (y0 : V)
    (cls jbad : Bool) (fuel : ℕ) (s : NState V) :
    (newton_solve p y0 cls jbad (fuel + 1) s =
      match newton_attempt p y0 cls jbad s with
      | (.ok u, s1) => some (.ok u, s1)
      | (.error e, s1) =>
        if e = NewtonErr.convRecover ∧ s1.jcur = false then
          newton_solve p y0 true true fuel { s1 with nconvfails := s1.nconvfails + 1 }
        else some (.error e, { s1 with nconvfails := s1.nconvfails + 1 })) ∧
    (∀ (r : Except NewtonErr Unit) (s2 : NState V),
      newton_solve p y0 cls jbad fuel s = some (r, s2) →
      s2.niters + s.nlsolve = s.niters + s2.nlsolve ∧
      s.niters ≤ s2.niters ∧ s.nconvfails ≤ s2.nconvfails) ∧
    (∀ (e : NewtonErr) (s2 : NState V),
      newton_solve p y0 cls jbad fuel s = some (.error e, s2) →
      s.nconvfails + 1 ≤ s2.nconvfails) :=
  ⟨rfl, fun r s2 h => newton_solve_acc p y0 fuel cls jbad s r s2 h,
   fun e s2 h => newton_solve_err p y0 fuel cls jbad s e s2 h⟩

/-- C5 witness: a concrete one-shot converging run (script `nw_p`, initial
state `nw_s0`): the run completes with final state `nw_final` and the
accounting facts instantiate there. -/
theorem newton_solve_counters_witness :
    newton_solve nw_p (0 : ℚ) true false 1 nw_s0 = some (.ok (), nw_final) ∧
    nw_final.niters + nw_s0.nlsolve = nw_s0.niters + nw_final.nlsolve ∧
    nw_s0.niters ≤ nw_final.niters ∧ nw_s0.nconvfails ≤ nw_final.nconvfails := by
  have hrun : newton_solve nw_p (0 : ℚ) true false 1 nw_s0 = some (.ok (), nw_final) := by
    rw [show (1 : ℕ) = 0 + 1 from rfl, newton_solve]
    simp only [newton_attempt, nw_p, nw_s0]
    rw [newton_inner]
    simp [nw_final]
  exact ⟨hrun,
    (newton_solve_counters nw_p 0 true false 1 nw_s0).2.1 (.ok ()) nw_final hrun⟩
